import Mathlib

/-!
Shallow embedding of the core of the `plox` log-processing engine
(`src/process_log.rs`, `src/align_ranges.rs`, `src/resolved_graph_config.rs`,
`src/graph_config.rs`) together with theorems settling the frozen claims.

Modelling conventions:
* Timestamps (`chrono::NaiveDateTime` / `NaiveTime`) are modelled as `Int`
  values counting milliseconds; the only operations the verified code performs
  on them are ordering comparisons, `min`/`max` and
  `signed_duration_since(..).num_milliseconds()`, all of which are exact on
  integer milliseconds.
* `f64` numeric values are modelled as exact rationals (`ℚ`).  The numeric
  parsing done by `str::parse::<f64>()` is modelled on plain decimal literals
  (optional sign, digits, at most one decimal point), which is the fragment
  exercised by the field/unit extraction pipeline.
* File-system paths are strings; `Path::join` appends with a `/` separator and
  `Path::file_name` takes the last `/`-separated component.
* The compiled `regex` crate machinery and the `chrono` format parser are
  external libraries; they enter the model as oracle functions
  (`regex : String → Option Captures`, `extract : String → Option (Int × String)`,
  `RegexOracle` for field-pattern validation), so every theorem quantifies over
  their behaviour.
-/

namespace Plox

/-- Result of `fs::metadata(..).modified()` seconds formatting in
`ResolvedLine::get_csv_filename`: for each source file, the mtime-seconds
string (or `"nots"` on error).  Modelled as a function supplied by the
environment. -/
abbrev MtimeOracle := String → String

/-- Models `str::parse::<f64>()` on a plain decimal literal: an optional
sign, digits and at most one decimal point, mapped to its exact rational
value.  Malformed inputs (for example `"1.2.3"`, captured by the
`([\d\.]+)` template group) parse to `none`, exactly as `parse().ok()`
yields `None` in `normalize_value`. -/
def parseDecimal (s : String) : Option ℚ :=
  let cs := s.data
  let signed : Bool × List Char :=
    match cs with
    | '-' :: rest => (true, rest)
    | '+' :: rest => (false, rest)
    | other => (false, other)
  let body := signed.2
  if body.all (fun c => c.isDigit || c = '.') && body.count '.' ≤ 1 &&
      body.any Char.isDigit then
    let intPart := body.takeWhile (fun c => c ≠ '.')
    let fracPart := (body.dropWhile (fun c => c ≠ '.')).drop 1
    let digitsVal : List Char → Nat :=
      fun ds => ds.foldl (fun a c => a * 10 + (c.toNat - 48)) 0
    let n : Nat := digitsVal intPart * 10 ^ fracPart.length + digitsVal fracPart
    let num : Int := if signed.1 then -(n : Int) else (n : Int)
    some (mkRat num (10 ^ fracPart.length))
  else
    none

/-- Models `normalize_value` (process_log.rs): parse the captured text as a
number, then convert the recognized time units to milliseconds; an
unrecognized or absent unit leaves the parsed value unchanged.  The
micro-sign alias in the source is the two-character sequence U+00C2 U+00B5
(the file stores the UTF-8 bytes `c3 82 c2 b5`), reproduced here
verbatim. -/
def normalize_value (value : String) (unit : String) : Option ℚ :=
  match parseDecimal value with
  | none => none
  | some base =>
    if unit = "s" then some (base * 1000)
    else if unit = "ms" then some base
    else if unit = "us" || unit = "Âµs" then some (base / 1000)
    else if unit = "ns" then some (base / 1000000)
    else if unit = "microseconds" then some (base / 1000)
    else some base

/-- Models the `DataSource` enum (graph_config.rs): the four kinds of line
data sources, each carrying an optional guard and a pattern / field
(`EventValue` additionally carries its fixed `yvalue`). -/
inductive DataSource where
  | EventValue (guard : Option String) (pattern : String) (yvalue : ℚ)
  | EventCount (guard : Option String) (pattern : String)
  | EventDelta (guard : Option String) (pattern : String)
  | FieldValue (guard : Option String) (field : String)
  deriving DecidableEq, Repr

namespace DataSource

/-- Models `DataSource::guard`. -/
def guard : DataSource → Option String
  | .EventValue g _ _ => g
  | .EventCount g _ => g
  | .EventDelta g _ => g
  | .FieldValue g _ => g

/-- Models `DataSource::match_token`: the event pattern text, or the field
name for `FieldValue`. -/
def match_token : DataSource → String
  | .EventValue _ p _ => p
  | .EventCount _ p => p
  | .EventDelta _ p => p
  | .FieldValue _ f => f

/-- Models `ResolvedLine::can_csv_file_be_shared`: only `EventCount` and
`EventDelta` lines may reuse another line's cache file. -/
def can_csv_file_be_shared : DataSource → Bool
  | .EventCount _ _ => true
  | .EventDelta _ _ => true
  | _ => false

/-- True exactly for `FieldValue` sources (used by the canonical choice in
`propagate_shared_csv_files`). -/
def isFieldValue : DataSource → Bool
  | .FieldValue _ _ => true
  | _ => false

/-- True exactly for `EventValue` sources (used by the canonical choice in
`propagate_shared_csv_files`). -/
def isEventValue : DataSource → Bool
  | .EventValue _ _ _ => true
  | _ => false

end DataSource

/-- Oracle for the parts of `DataSource::regex_pattern` that call into the
`regex` crate: `is_field_valid_regex` models "the field compiles as a regex
with 1 or 2 capture groups" (`DataSource::is_field_valid_regex`), and
`escape` models `regex::escape`. -/
structure RegexOracle where
  is_field_valid_regex : String → Bool
  escape : String → String

/-- Models `DataSource::regex_pattern`: event patterns are used verbatim;
a `FieldValue` field is used verbatim when it is a usable 1-2 capture-group
regex and otherwise rewritten to the fixed template
`\b<escaped-field>=([\d\.]+)(\w+)?`. -/
def regex_pattern (oracle : RegexOracle) : DataSource → String
  | .EventValue _ p _ => p
  | .EventCount _ p => p
  | .EventDelta _ p => p
  | .FieldValue _ f =>
    if oracle.is_field_valid_regex f then f
    else "\\b" ++ oracle.escape f ++ "=([\\d\\.]+)(\\w+)?"

/-- UTF-8 bytes of a character, as natural numbers (the byte values the
`urlencoding` crate percent-encodes). -/
def charUtf8 (c : Char) : List Nat :=
  let n := c.toNat
  if n < 0x80 then [n]
  else if n < 0x800 then [0xC0 + n / 0x40, 0x80 + n % 0x40]
  else if n < 0x10000 then
    [0xE0 + n / 0x1000, 0x80 + n / 0x40 % 0x40, 0x80 + n % 0x40]
  else
    [0xF0 + n / 0x40000, 0x80 + n / 0x1000 % 0x40, 0x80 + n / 0x40 % 0x40,
      0x80 + n % 0x40]

/-- Uppercase hexadecimal digit for a value below 16. -/
def hexDigit (n : Nat) : Char :=
  if n < 10 then Char.ofNat (48 + n) else Char.ofNat (55 + n)

/-- Models `urlencoding::encode`: percent-encode every UTF-8 byte except
ASCII alphanumerics and `-`, `.`, `_`, `~`. -/
def urlencode (s : String) : String :=
  let isSafe : Nat → Bool := fun n =>
    (48 ≤ n && n ≤ 57) || (65 ≤ n && n ≤ 90) || (97 ≤ n && n ≤ 122) ||
      n = 45 || n = 46 || n = 95 || n = 126
  (s.data.flatMap charUtf8).foldl
    (fun acc n =>
      if isSafe n then acc.push (Char.ofNat n)
      else (acc.push '%' |>.push (hexDigit (n / 16))).push (hexDigit (n % 16)))
    ""

/-- Models `DataSource::regex_filename_tag`: the url-encoded effective regex
pattern, as embedded in cache filenames. -/
def regex_filename_tag (oracle : RegexOracle) (ds : DataSource) : String :=
  urlencode (regex_pattern oracle ds)

/-- Last `/`-separated component of a path, modelling `Path::file_name` on
the paths handled here. -/
def pathFileName (s : String) : String :=
  String.mk (s.data.foldl (fun acc c => if c = '/' then [] else acc ++ [c]) [])

/-- Models `Path::join` for the relative cache filenames produced by
`get_csv_filename`. -/
def pathJoin (dir file : String) : String := dir ++ "/" ++ file

/-- Models the `Display` rendering of an `f64` `yvalue` inside
`format!("value_{yvalue}_{tag}")`: exact for integral values (which all
concrete statements below use); non-integral rationals are shown in `ℚ`
form. -/
def showYValue (q : ℚ) : String :=
  if q.den = 1 then toString q.num else toString q

/-- Models the `Line` struct as far as the verified core reads it: its data
source plus presentation parameters, which the core never inspects and which
are collapsed to an opaque tag (`params`). -/
structure Line where
  data_source : DataSource
  params : Nat
  deriving DecidableEq, Repr

/-- Models `ResolvedLine` (resolved_graph_config.rs): a line bound to one
concrete source file, an optional assigned cache-file path, a data-point
count and an optional time window. -/
structure ResolvedLine where
  line : Line
  source : String
  shared_csv_file : Option String
  data_points_count : Nat
  time_range : Option (Int × Int)
  deriving DecidableEq, Repr

namespace ResolvedLine

/-- Models `ResolvedLine::from_explicit_name`. -/
def from_explicit_name (line : Line) (file_name : String) : ResolvedLine :=
  { line := line, source := file_name, shared_csv_file := none,
    data_points_count := 0, time_range := none }

/-- Models `ResolvedLine::guard`. -/
def guard (l : ResolvedLine) : Option String := l.line.data_source.guard

/-- Models `ResolvedLine::match_token`. -/
def match_token (l : ResolvedLine) : String := l.line.data_source.match_token

/-- Models `ResolvedLine::source_file_name`. -/
def source_file_name (l : ResolvedLine) : String := l.source

/-- Models `ResolvedLine::can_csv_file_be_shared`. -/
def can_csv_file_be_shared (l : ResolvedLine) : Bool :=
  l.line.data_source.can_csv_file_be_shared

/-- Models `ResolvedLine::get_csv_filename`: the relative cache filename
built from the source file name, its mtime seconds, the optional guard, a
kind-specific core and the url-encoded pattern tag. -/
def get_csv_filename (oracle : RegexOracle) (mtime : MtimeOracle)
    (l : ResolvedLine) : String :=
  let tag := regex_filename_tag oracle l.line.data_source
  let core :=
    match l.line.data_source with
    | .EventValue _ _ yvalue => "value_" ++ showYValue yvalue ++ "_" ++ tag
    | .EventCount _ _ => "count_" ++ tag
    | .EventDelta _ _ => "delta_" ++ tag
    | .FieldValue _ _ => tag
  let log_name := pathFileName l.source_file_name
  let ts := mtime l.source_file_name
  match l.line.data_source.guard with
  | some g => log_name ++ "_" ++ ts ++ "__" ++ g ++ "__" ++ core ++ ".csv"
  | none => log_name ++ "_" ++ ts ++ "__" ++ core ++ ".csv"

end ResolvedLine

/-- Models `PanelRangeMode` (graph_config.rs); the `Default` derive picks
`Full`. -/
inductive PanelRangeMode where
  | Full
  | BestFit
  deriving DecidableEq, Repr

instance : Inhabited PanelRangeMode := ⟨.Full⟩

/-- Models `ResolvedPanel`: its lines, the configured range mode
(`params.time_range_mode`) and the resolved window. -/
structure ResolvedPanel where
  lines : List ResolvedLine
  time_range_mode : Option PanelRangeMode
  time_range : Option (Int × Int)
  deriving DecidableEq, Repr

/-- Models `ResolvedPanel::set_time_range`. -/
def ResolvedPanel.set_time_range (p : ResolvedPanel) (s e : Int) :
    ResolvedPanel :=
  { p with time_range := some (s, e) }

/-- Models `ResolvedGraphConfig`: the ordered list of panels. -/
structure ResolvedGraphConfig where
  panels : List ResolvedPanel
  deriving DecidableEq, Repr

/-- Models `ResolvedGraphConfig::all_lines` (panel-order flattening). -/
def ResolvedGraphConfig.all_lines (cfg : ResolvedGraphConfig) :
    List ResolvedLine :=
  (cfg.panels.map ResolvedPanel.lines).flatten

/-- The grouping key of `propagate_shared_csv_files`:
`(guard, match-token, bound source file)`. -/
abbrev MatchKey := Option String × String × String

/-- Key of a resolved line, as pushed into `grouped_lines`. -/
def lineKey (l : ResolvedLine) : MatchKey :=
  (l.guard, l.match_token, l.source_file_name)

/-- Record a key if it is not present yet. -/
def insertKey (ks : List MatchKey) (k : MatchKey) : List MatchKey :=
  if ks.contains k then ks else ks ++ [k]

/-- Keys of a config's lines in order of first occurrence.  The Rust
`HashMap` iterates its groups in an unspecified order; all properties proved
below are independent of that order. -/
def groupKeys (cfg : ResolvedGraphConfig) : List MatchKey :=
  cfg.all_lines.foldl (fun ks l => insertKey ks (lineKey l)) []

/-- The group of lines sharing a key, in config (push) order, modelling one
entry of `grouped_lines`. -/
def groupOf (cfg : ResolvedGraphConfig) (k : MatchKey) : List ResolvedLine :=
  cfg.all_lines.filter (fun l => lineKey l == k)

/-- Models the canonical choice inside `propagate_shared_csv_files`: the
first `FieldValue` line of the group, else the first `EventValue` line, else
the group's first line (`&lines[0]`; `none` only on the empty group, which
cannot occur). -/
def canonicalOf (g : List ResolvedLine) : Option ResolvedLine :=
  ((g.find? (fun l => l.line.data_source.isFieldValue)).or
      (g.find? (fun l => l.line.data_source.isEventValue))).or g.head?

/-- The cache path a line assigns to itself in the first loop of
`propagate_shared_csv_files`: the resolved cache directory of its source
file joined with its own `get_csv_filename`.  `cacheDir` models the injected
`get_cache_dir` closure in its successful case (its failures are I/O errors
that abort the whole resolution). -/
def ownCsvPath (oracle : RegexOracle) (mtime : MtimeOracle)
    (cacheDir : String → String) (l : ResolvedLine) : String :=
  pathJoin (cacheDir l.source_file_name) (l.get_csv_filename oracle mtime)

/-- A line with its own cache path written into `shared_csv_file`, the
state every line has after the first loop of a group's processing. -/
def withOwnCsv (oracle : RegexOracle) (mtime : MtimeOracle)
    (cacheDir : String → String) (l : ResolvedLine) : ResolvedLine :=
  { l with shared_csv_file := some (ownCsvPath oracle mtime cacheDir l) }

/-- Final cache path of a line, as left by `propagate_shared_csv_files`:
shareable lines (`EventCount`/`EventDelta`) are redirected to the canonical
line's own path, all others keep their own path.  (The `none` canonical
case is unreachable: a line's own group contains it.) -/
def resolveLineCsv (oracle : RegexOracle) (mtime : MtimeOracle)
    (cacheDir : String → String) (g : List ResolvedLine) (l : ResolvedLine) :
    ResolvedLine :=
  if l.can_csv_file_be_shared then
    match canonicalOf g with
    | some c =>
      { l with shared_csv_file := some (ownCsvPath oracle mtime cacheDir c) }
    | none => withOwnCsv oracle mtime cacheDir l
  else
    withOwnCsv oracle mtime cacheDir l

/-- Association-list insert with overwrite, modelling `HashMap::insert`
(hash maps carry no meaningful order). -/
def assocInsert : List (String × ResolvedLine) → String → ResolvedLine →
    List (String × ResolvedLine)
  | [], k, v => [(k, v)]
  | kv :: rest, k, v =>
    if kv.1 == k then (k, v) :: rest else kv :: assocInsert rest k v

/-- Association-list insert keeping an existing entry, modelling
`HashMap::entry(..).or_insert_with(..)`. -/
def assocOrInsert : List (String × ResolvedLine) → String → ResolvedLine →
    List (String × ResolvedLine)
  | [], k, v => [(k, v)]
  | kv :: rest, k, v =>
    if kv.1 == k then kv :: rest else kv :: assocOrInsert rest k v

theorem self_mem_keys_assocInsert (k : String) (v : ResolvedLine) :
    ∀ m : List (String × ResolvedLine),
      k ∈ (assocInsert m k v).map Prod.fst := by
  intro m
  induction m with
  | nil => simp [assocInsert]
  | cons kv rest ih =>
    unfold assocInsert
    split
    · simp
    · simpa using Or.inr ih

theorem mem_keys_assocInsert_of_mem (k : String) (v : ResolvedLine)
    (x : String) : ∀ m : List (String × ResolvedLine),
      x ∈ m.map Prod.fst → x ∈ (assocInsert m k v).map Prod.fst := by
  intro m
  induction m with
  | nil => simp
  | cons kv rest ih =>
    intro hx
    unfold assocInsert
    simp only [List.map_cons, List.mem_cons] at hx
    split
    case isTrue hbeq =>
      rcases hx with hx | hx
      · simp [hx ▸ eq_of_beq hbeq]
      · simpa using Or.inr hx
    case isFalse hbeq =>
      rcases hx with hx | hx
      · simp [hx]
      · simpa using Or.inr (ih hx)

theorem self_mem_keys_assocOrInsert (k : String) (v : ResolvedLine) :
    ∀ m : List (String × ResolvedLine),
      k ∈ (assocOrInsert m k v).map Prod.fst := by
  intro m
  induction m with
  | nil => simp [assocOrInsert]
  | cons kv rest ih =>
    unfold assocOrInsert
    split
    case isTrue hbeq => simp [(eq_of_beq hbeq).symm]
    case isFalse hbeq => simpa using Or.inr ih

theorem mem_keys_assocOrInsert_of_mem (k : String) (v : ResolvedLine)
    (x : String) : ∀ m : List (String × ResolvedLine),
      x ∈ m.map Prod.fst → x ∈ (assocOrInsert m k v).map Prod.fst := by
  intro m
  induction m with
  | nil => simp
  | cons kv rest ih =>
    intro hx
    unfold assocOrInsert
    simp only [List.map_cons, List.mem_cons] at hx
    split
    · simpa using hx
    · rcases hx with hx | hx
      · simp [hx]
      · simpa using Or.inr (ih hx)

/-- One step of the second loop of a group's processing: a non-shareable
line registers (or-inserts) itself under its own path; a shareable line is
only redirected, never registered. -/
def registerNonShared (oracle : RegexOracle) (mtime : MtimeOracle)
    (cacheDir : String → String) (m : List (String × ResolvedLine))
    (l : ResolvedLine) : List (String × ResolvedLine) :=
  if l.can_csv_file_be_shared then m
  else
    assocOrInsert m (ownCsvPath oracle mtime cacheDir l)
      (withOwnCsv oracle mtime cacheDir l)

/-- Processing of one dedup group into the `canonicals` map: insert the
canonical line under its own path, then or-insert every non-shareable line
of the group under its own path. -/
def processGroupInto (oracle : RegexOracle) (mtime : MtimeOracle)
    (cacheDir : String → String) (m : List (String × ResolvedLine))
    (g : List ResolvedLine) : List (String × ResolvedLine) :=
  match canonicalOf g with
  | none => m
  | some c =>
    g.foldl (registerNonShared oracle mtime cacheDir)
      (assocInsert m (ownCsvPath oracle mtime cacheDir c)
        (withOwnCsv oracle mtime cacheDir c))

/-- Models `propagate_shared_csv_files` (process_log.rs): every line of the
config receives a cache-file path (its own, or the canonical's for shareable
lines), and the map of distinct canonical cache files is returned.  The
config update and the returned map are each determined by the line's dedup
group, exactly as in the mutable-aliasing original. -/
def propagate_shared_csv_files (oracle : RegexOracle) (mtime : MtimeOracle)
    (cacheDir : String → String) (cfg : ResolvedGraphConfig) :
    ResolvedGraphConfig × List (String × ResolvedLine) :=
  let cfg' : ResolvedGraphConfig :=
    { panels := cfg.panels.map (fun p =>
        { p with lines := p.lines.map (fun l =>
            resolveLineCsv oracle mtime cacheDir (groupOf cfg (lineKey l)) l) }) }
  let canonicals := (groupKeys cfg).foldl
    (fun m k => processGroupInto oracle mtime cacheDir m (groupOf cfg k)) []
  (cfg', canonicals)

/-- Models `TimestampFormat` (graph_config.rs): a user strftime-like format
classified as date-bearing or time-only. -/
inductive TimestampFormat where
  | DateTime (fmt : String)
  | Time (fmt : String)
  deriving DecidableEq, Repr

/-- Models `process_log::Error` as far as the verified core produces it. -/
inductive ProcessError where
  | Regex (msg : String)
  | FileIoError (path : String) (msg : String)
  | InvalidInputFile (path : String) (msg : String)
  | RegexCapturesGroupsInvalidCount (pattern : String)
  | TimeRangeParsingError (msg : String)
  | TimestampExtractionFailure (file : String) (format : TimestampFormat)
      (line : String)
  deriving DecidableEq, Repr

/-- Models `regex::Captures` as far as `LineProcessor::process` reads it:
the texts of capture groups 1 (value) and 2 (unit), when present. -/
structure Captures where
  g1 : Option String
  g2 : Option String
  deriving DecidableEq, Repr

/-- Models `ProcessingState`: the running match count and the timestamp of
the previous successful match. -/
structure ProcessingState where
  count : Nat
  last_timestamp : Option Int
  deriving DecidableEq, Repr

/-- Models `ProcessingState::new`. -/
def ProcessingState.init : ProcessingState :=
  { count := 0, last_timestamp := none }

/-- Models `LogRecord`.  The Rust struct stores the timestamp already
rendered as `date`/`time` strings; the model keeps the timestamp itself
(`timestamp`, in milliseconds), which those strings are a fixed formatting
of.  `diff` is the signed millisecond delta (`None` on the first match). -/
structure LogRecord where
  timestamp : Int
  value : ℚ
  count : Nat
  diff : Option Int
  deriving DecidableEq, Repr

/-- Whether the first character list starts the second one. -/
def startsWithChars : List Char → List Char → Bool
  | [], _ => true
  | _ :: _, [] => false
  | a :: as, b :: bs => a = b && startsWithChars as bs

/-- Substring containment, modelling `str::contains` for the guard check. -/
def strContains (hay needle : String) : Bool :=
  (List.range (hay.data.length + 1)).any
    (fun i => startsWithChars needle.data (hay.data.drop i))

/-- Models `LineProcessor`.  The compiled regex and the chrono timestamp
parser are external-library behaviours and enter the model as oracle
functions: `regex` maps a line remainder to its captures (groups 1 and 2)
when the compiled pattern matches, and `extract` models
`TimestampFormat::extract_timestamp`, yielding the timestamp (milliseconds)
and the remainder of the line. -/
structure LineProcessor where
  data_source : DataSource
  regex : String → Option Captures
  extract : String → Option (Int × String)
  state : ProcessingState
  records : List LogRecord
  timestamp_format : TimestampFormat
  timestamp_extraction_failure_count : Nat
  input_file_name : String

namespace LineProcessor

/-- Models `LineProcessor::guard_matches`. -/
def guard_matches (p : LineProcessor) (log_line : String) : Bool :=
  match p.data_source.guard with
  | some g => strContains log_line g
  | none => true

/-- Models `LineProcessor::handle_timestamp_extraction_failure`: increment
the per-scan failure counter; strictly beyond 3 failures the scan aborts
with a `TimestampExtractionFailure` carrying the input file, the format and
the failing line. -/
def handle_timestamp_extraction_failure (p : LineProcessor) (line : String) :
    Except ProcessError LineProcessor :=
  let p' := { p with
    timestamp_extraction_failure_count :=
      p.timestamp_extraction_failure_count + 1 }
  if p'.timestamp_extraction_failure_count > 3 then
    .error (.TimestampExtractionFailure p.input_file_name p.timestamp_format
      line)
  else
    .ok p'

/-- Models `LineProcessor::try_match`: guard check first; on guard pass,
timestamp extraction; on extraction success, the regex is run against the
remainder only; on extraction failure the failure handler decides between
continuing (no captures) and a fatal error.  Returns the updated processor,
whether the guard matched, and the captures with their timestamp. -/
def try_match (p : LineProcessor) (line : String) :
    Except ProcessError (LineProcessor × Bool × Option (Captures × Int)) :=
  if p.guard_matches line then
    match p.extract line with
    | some (timestamp, remainder) =>
      .ok (p, true, (p.regex remainder).map (fun c => (c, timestamp)))
    | none =>
      match p.handle_timestamp_extraction_failure line with
      | .ok p' => .ok (p', true, none)
      | .error e => .error e
  else
    .ok (p, false, none)

/-- Models `LineProcessor::process`: the count is advanced and the delta
computed (updating `last_timestamp`) before the value is extracted, so a
`FieldValue` capture failing numeric parse consumes count and timestamp
state but appends no record. -/
def process (p : LineProcessor) (caps : Captures) (timestamp : Int) :
    LineProcessor :=
  let count := p.state.count + 1
  let diff := p.state.last_timestamp.map (fun prev => timestamp - prev)
  let newState : ProcessingState :=
    { count := count, last_timestamp := some timestamp }
  match p.data_source with
  | .EventValue _ _ yvalue =>
    { p with
      state := newState,
      records := p.records ++
        [{ timestamp := timestamp, value := yvalue, count := count,
           diff := diff }] }
  | .EventCount _ _ =>
    { p with
      state := newState,
      records := p.records ++
        [{ timestamp := timestamp, value := 1, count := count, diff := diff }] }
  | .EventDelta _ _ =>
    { p with
      state := newState,
      records := p.records ++
        [{ timestamp := timestamp, value := 1, count := count, diff := diff }] }
  | .FieldValue _ _ =>
    let raw := caps.g1.getD "0"
    let unit := caps.g2.getD ""
    match normalize_value raw unit with
    | some v =>
      { p with
        state := newState,
        records := p.records ++
          [{ timestamp := timestamp, value := v, count := count,
             diff := diff }] }
    | none => { p with state := newState }

end LineProcessor

/-- One processor's view of the scan loop in `process_inputs`: feed each
matched capture (with its timestamp) to `process`. -/
def processAll (p : LineProcessor) (inputs : List (Captures × Int)) :
    LineProcessor :=
  inputs.foldl (fun p ct => p.process ct.1 ct.2) p

/-- One processor's scan over raw log lines: `try_match` each line and
`process` on success, propagating fatal errors, exactly as the per-line loop
of `process_inputs` drives a single processor. -/
def scanLines (p : LineProcessor) : List String → Except ProcessError LineProcessor
  | [] => .ok p
  | line :: rest =>
    match p.try_match line with
    | .error e => .error e
    | .ok (p', _, some (caps, timestamp)) =>
      scanLines (p'.process caps timestamp) rest
    | .ok (p', _, none) => scanLines p' rest

/-- Models `PanelAlignmentMode` (graph_config.rs). -/
inductive PanelAlignmentMode where
  | PerPanel
  | SharedFull
  | SharedOverlap
  | Fixed (s e : Int)
  deriving DecidableEq, Repr

/-- Models `ResolvedPanel::resolve_time_range` (align_ranges.rs): collect
the start/end of every line that has a range; if none has one, leave the
panel unchanged; otherwise apply the configured mode, `BestFit` falling back
to the full span when the intersection is empty (`start >= end`). -/
def ResolvedPanel.resolve_time_range (p : ResolvedPanel) : ResolvedPanel :=
  let starts := (p.lines.filterMap ResolvedLine.time_range).map Prod.fst
  let ends := (p.lines.filterMap ResolvedLine.time_range).map Prod.snd
  match starts.min?, starts.max?, ends.min?, ends.max? with
  | some mn, some maxStart, some minEnd, some mx =>
    match p.time_range_mode.getD .Full with
    | .Full => p.set_time_range mn mx
    | .BestFit =>
      if maxStart < minEnd then p.set_time_range maxStart minEnd
      else p.set_time_range mn mx
  | _, _, _, _ => p

/-- The first loop of `resolve_panels_ranges_inner`: resolve every panel's
own range. -/
def resolveAllPanels (cfg : ResolvedGraphConfig) : ResolvedGraphConfig :=
  { panels := cfg.panels.map ResolvedPanel.resolve_time_range }

/-- Models the `for panel in &mut config.panels { panel.set_time_range(..) }`
loops of `resolve_panels_ranges_inner`. -/
def setAllPanels (cfg : ResolvedGraphConfig) (s e : Int) :
    ResolvedGraphConfig :=
  { panels := cfg.panels.map (fun p => p.set_time_range s e) }

/-- Models `resolve_panels_ranges_inner` (align_ranges.rs): resolve every
panel's own range, then reconcile them under the alignment mode.  The
`panic!` reached under `SharedFull` when the combined range is degenerate
(`global_start >= global_end`) is modelled as `none`. -/
def resolve_panels_ranges_inner (cfg : ResolvedGraphConfig)
    (align_mode : PanelAlignmentMode) : Option ResolvedGraphConfig :=
  let cfg := resolveAllPanels cfg
  match align_mode with
  | .PerPanel => some cfg
  | .SharedFull =>
    let global_start :=
      ((cfg.panels.filterMap ResolvedPanel.time_range).map Prod.fst).min?
    let global_end :=
      ((cfg.panels.filterMap ResolvedPanel.time_range).map Prod.snd).max?
    match global_start, global_end with
    | some s, some e =>
      if s < e then some (setAllPanels cfg s e) else none
    | _, _ => some cfg
  | .SharedOverlap =>
    let global_start :=
      ((cfg.panels.filterMap ResolvedPanel.time_range).map Prod.fst).max?
    let global_end :=
      ((cfg.panels.filterMap ResolvedPanel.time_range).map Prod.snd).min?
    match global_start, global_end with
    | some s, some e =>
      if s < e then some (setAllPanels cfg s e) else some cfg
    | _, _ => some cfg
  | .Fixed s e => some (setAllPanels cfg s e)

/-- Whether `LineProcessor::process` emits a record for this capture: always
for event sources, and exactly when the capture parses numerically for
`FieldValue`. -/
def emits (ds : DataSource) (c : Captures) : Bool :=
  match ds with
  | .FieldValue _ _ => (normalize_value (c.g1.getD "0") (c.g2.getD "")).isSome
  | _ => true

/-- The value an emitted record carries, per data-source kind. -/
def recordValue (ds : DataSource) (c : Captures) : ℚ :=
  match ds with
  | .EventValue _ _ yvalue => yvalue
  | .EventCount _ _ => 1
  | .EventDelta _ _ => 1
  | .FieldValue _ _ => (normalize_value (c.g1.getD "0") (c.g2.getD "")).getD 0

/-- The records a processor appends over a run of emitting matches, starting
from running count `c0` and previous timestamp `last`. -/
def expectedRecords (ds : DataSource) :
    Nat → Option Int → List (Captures × Int) → List LogRecord
  | _, _, [] => []
  | c0, last, (c, t) :: rest =>
    { timestamp := t, value := recordValue ds c, count := c0 + 1,
      diff := last.map (fun prev => t - prev) } ::
      expectedRecords ds (c0 + 1) (some t) rest

theorem process_data_source (p : LineProcessor) (c : Captures) (t : Int) :
    (p.process c t).data_source = p.data_source := by
  unfold LineProcessor.process
  cases h : p.data_source <;> simp only [h]
  split <;> rfl

theorem process_state (p : LineProcessor) (c : Captures) (t : Int) :
    (p.process c t).state =
      { count := p.state.count + 1, last_timestamp := some t } := by
  unfold LineProcessor.process
  cases h : p.data_source <;> simp only [h]
  split <;> rfl

theorem process_records_of_emit (p : LineProcessor) (c : Captures) (t : Int)
    (h : emits p.data_source c = true) :
    (p.process c t).records = p.records ++
      [{ timestamp := t, value := recordValue p.data_source c,
         count := p.state.count + 1,
         diff := p.state.last_timestamp.map (fun prev => t - prev) }] := by
  cases hds : p.data_source with
  | EventValue g pat y => simp [LineProcessor.process, hds, recordValue]
  | EventCount g pat => simp [LineProcessor.process, hds, recordValue]
  | EventDelta g pat => simp [LineProcessor.process, hds, recordValue]
  | FieldValue g f =>
    simp only [emits, hds] at h
    obtain ⟨v, hv⟩ := Option.isSome_iff_exists.mp h
    simp [LineProcessor.process, hds, recordValue, hv]

theorem processAll_records (inputs : List (Captures × Int)) :
    ∀ p : LineProcessor, (∀ x ∈ inputs, emits p.data_source x.1 = true) →
      (processAll p inputs).records = p.records ++
        expectedRecords p.data_source p.state.count p.state.last_timestamp
          inputs := by
  induction inputs with
  | nil => intro p _; simp [processAll, expectedRecords]
  | cons x rest ih =>
    intro p h
    obtain ⟨c, t⟩ := x
    have hx : emits p.data_source c = true := h (c, t) (by simp)
    have hrest : ∀ y ∈ rest, emits (p.process c t).data_source y.1 = true := by
      intro y hy
      rw [process_data_source]
      exact h y (List.mem_cons_of_mem _ hy)
    have hstep : processAll p ((c, t) :: rest) =
        processAll (p.process c t) rest := rfl
    rw [hstep, ih _ hrest, process_records_of_emit p c t hx,
      process_data_source, process_state, expectedRecords]
    simp

theorem expectedRecords_counts (ds : DataSource) :
    ∀ (inputs : List (Captures × Int)) (c0 : Nat) (last : Option Int),
      (expectedRecords ds c0 last inputs).map LogRecord.count =
        List.range' (c0 + 1) inputs.length := by
  intro inputs
  induction inputs with
  | nil => intro c0 last; simp [expectedRecords]
  | cons x rest ih =>
    intro c0 last
    obtain ⟨c, t⟩ := x
    simp [expectedRecords, List.range'_succ, ih]

theorem expectedRecords_diff_first (ds : DataSource)
    (inputs : List (Captures × Int)) (c0 : Nat)
    (h : 0 < (expectedRecords ds c0 none inputs).length) :
    ((expectedRecords ds c0 none inputs).get ⟨0, h⟩).diff = none := by
  cases inputs with
  | nil => simp [expectedRecords] at h
  | cons x rest => obtain ⟨c, t⟩ := x; simp [expectedRecords]

theorem expectedRecords_diff_step (ds : DataSource) :
    ∀ (inputs : List (Captures × Int)) (c0 : Nat) (last : Option Int) (k : Nat)
      (h : k + 1 < (expectedRecords ds c0 last inputs).length),
      ((expectedRecords ds c0 last inputs).get ⟨k + 1, h⟩).diff =
        some (((expectedRecords ds c0 last inputs).get ⟨k + 1, h⟩).timestamp -
          ((expectedRecords ds c0 last inputs).get
            ⟨k, Nat.lt_of_succ_lt h⟩).timestamp) := by
  intro inputs
  induction inputs with
  | nil => intro c0 last k h; simp [expectedRecords] at h
  | cons x rest ih =>
    intro c0 last k h
    obtain ⟨c, t⟩ := x
    cases k with
    | zero =>
      cases rest with
      | nil => simp [expectedRecords] at h
      | cons y rest2 =>
        obtain ⟨c1, t1⟩ := y
        simp [expectedRecords]
    | succ k2 =>
      have h2 : k2 + 1 <
          (expectedRecords ds (c0 + 1) (some t) rest).length := by
        simpa [expectedRecords] using h
      simpa [expectedRecords] using ih (c0 + 1) (some t) k2 h2

theorem listGetCongr {α : Type} {l l2 : List α} (h : l = l2) (k : Nat)
    (hk : k < l.length) (hk2 : k < l2.length) :
    l.get ⟨k, hk⟩ = l2.get ⟨k, hk2⟩ := by
  subst h; rfl

theorem expectedRecords_count_get (ds : DataSource) :
    ∀ (inputs : List (Captures × Int)) (c0 : Nat) (last : Option Int) (k : Nat)
      (h : k < (expectedRecords ds c0 last inputs).length),
      ((expectedRecords ds c0 last inputs).get ⟨k, h⟩).count = c0 + 1 + k := by
  intro inputs
  induction inputs with
  | nil => intro c0 last k h; simp [expectedRecords] at h
  | cons x rest ih =>
    intro c0 last k h
    obtain ⟨c, t⟩ := x
    cases k with
    | zero => simp [expectedRecords]
    | succ k2 =>
      have h2 : k2 < (expectedRecords ds (c0 + 1) (some t) rest).length := by
        simpa [expectedRecords] using h
      have := ih (c0 + 1) (some t) k2 h2
      simp only [expectedRecords, List.get_cons_succ]
      omega

/-- A line processor for the guard `"operation"` and field `"duration"`,
fresh at the start of a scan of `input.log`; the regex and timestamp
oracles are irrelevant to the record-level statements below. -/
def sampleFieldProcessor : LineProcessor :=
  { data_source := .FieldValue (some "operation") "duration",
    regex := fun _ => none,
    extract := fun _ => none,
    state := ProcessingState.init,
    records := [],
    timestamp_format := .DateTime "%Y-%m-%d %H:%M:%S",
    timestamp_extraction_failure_count := 0,
    input_file_name := "input.log" }

/-- A capture whose value text fails numeric parsing (two decimal points,
as the template group `([\d\.]+)` can produce). -/
def badCapture : Captures := { g1 := some "1.2.3", g2 := none }

/-- A capture whose value text parses as 4.5. -/
def goodCapture : Captures := { g1 := some "4.5", g2 := none }

/-- A run where the first match is dropped (value fails numeric parsing)
and the second emits a record. -/
def droppedThenEmitted : List (Captures × Int) :=
  [(badCapture, 1000), (goodCapture, 2000)]

/-- C10: a `FieldValue` capture that fails numeric parsing emits no record,
yet increments the running count and moves `last_timestamp` to the dropped
match's timestamp, so the next emitted record's count skips a value and its
delta is measured from the dropped match. -/
theorem fieldvalue_parse_failure_consumes_state (p : LineProcessor)
    (gd : Option String) (f : String) (c c2 : Captures) (t t2 : Int) (v : ℚ)
    (hds : p.data_source = .FieldValue gd f)
    (hfail : normalize_value (c.g1.getD "0") (c.g2.getD "") = none)
    (hok : normalize_value (c2.g1.getD "0") (c2.g2.getD "") = some v) :
    (p.process c t).records = p.records ∧
    (p.process c t).state.count = p.state.count + 1 ∧
    (p.process c t).state.last_timestamp = some t ∧
    ((p.process c t).process c2 t2).records = p.records ++
      [{ timestamp := t2, value := v, count := p.state.count + 2,
         diff := some (t2 - t) }] := by
  have hrec : (p.process c t).records = p.records := by
    simp [LineProcessor.process, hds, hfail]
  have hst := process_state p c t
  refine ⟨hrec, by rw [hst], by rw [hst], ?_⟩
  have hds2 : (p.process c t).data_source = .FieldValue gd f := by
    rw [process_data_source, hds]
  have key : ∀ q : LineProcessor, q.data_source = .FieldValue gd f →
      q.records = p.records →
      q.state = { count := p.state.count + 1, last_timestamp := some t } →
      (q.process c2 t2).records = p.records ++
        [{ timestamp := t2, value := v, count := p.state.count + 2,
           diff := some (t2 - t) }] := by
    intro q hq1 hq2 hq3
    simp [LineProcessor.process, hq1, hok, hq2, hq3]
  exact key _ hds2 hrec hst

/-- Witness for C10 at a concrete dropped-then-emitted pair of captures. -/
theorem fieldvalue_parse_failure_consumes_state_witness :
    (sampleFieldProcessor.process badCapture 1000).records =
      sampleFieldProcessor.records ∧
    (sampleFieldProcessor.process badCapture 1000).state.count =
      sampleFieldProcessor.state.count + 1 ∧
    (sampleFieldProcessor.process badCapture 1000).state.last_timestamp =
      some 1000 ∧
    ((sampleFieldProcessor.process badCapture 1000).process goodCapture
        2000).records = sampleFieldProcessor.records ++
      [{ timestamp := 2000, value := mkRat 45 10,
         count := sampleFieldProcessor.state.count + 2,
         diff := some (2000 - 1000) }] :=
  fieldvalue_parse_failure_consumes_state sampleFieldProcessor
    (some "operation") "duration" badCapture goodCapture 1000 2000
    (mkRat 45 10) rfl rfl rfl

/-- C2 fails as stated: after a dropped match, the first emitted record of
the processor carries count 2, not 1. -/
theorem count_column_counterexample :
    ¬ ∀ (k : Nat)
        (h : k < (processAll sampleFieldProcessor droppedThenEmitted).records.length),
        ((processAll sampleFieldProcessor droppedThenEmitted).records.get
          ⟨k, h⟩).count = k + 1 := by
  intro hall
  have := hall 0 (by decide)
  exact absurd this (by decide)

/-- C2 (amended): when every match of the run emits a record (no `FieldValue`
capture fails numeric parsing), the records of one Line Processor carry
counts exactly 1, 2, 3, ...: the k-th emitted record has count k. -/
theorem count_strictly_increasing_when_all_emit (p : LineProcessor)
    (inputs : List (Captures × Int))
    (hc : p.state.count = 0) (hr : p.records = [])
    (hemit : ∀ x ∈ inputs, emits p.data_source x.1 = true) :
    (processAll p inputs).records.map LogRecord.count =
      List.range' 1 inputs.length ∧
    ∀ (k : Nat) (h : k < (processAll p inputs).records.length),
      ((processAll p inputs).records.get ⟨k, h⟩).count = k + 1 := by
  have hrec := processAll_records inputs p hemit
  rw [hr, hc] at hrec
  rw [List.nil_append] at hrec
  constructor
  · rw [hrec, expectedRecords_counts]
  · intro k h
    have h2 : k < (expectedRecords p.data_source 0 p.state.last_timestamp
        inputs).length := by rw [← hrec]; exact h
    rw [listGetCongr hrec k h h2]
    have := expectedRecords_count_get p.data_source inputs 0
      p.state.last_timestamp k h2
    omega

/-- Witness for C2 (amended): two emitting matches yield counts [1, 2]. -/
theorem count_strictly_increasing_when_all_emit_witness :
    (processAll sampleFieldProcessor
        [(goodCapture, 1000), (goodCapture, 2000)]).records.map
      LogRecord.count = List.range' 1 2 :=
  (count_strictly_increasing_when_all_emit sampleFieldProcessor
    [(goodCapture, 1000), (goodCapture, 2000)] rfl rfl
    (by intro x hx; fin_cases hx <;> decide)).1

/-- C3 fails as stated: after a dropped match, the first emitted record of
the processor carries a delta measured from the dropped match, not `None`. -/
theorem delta_counterexample :
    ¬ ∀ (h : 0 < (processAll sampleFieldProcessor droppedThenEmitted).records.length),
        ((processAll sampleFieldProcessor droppedThenEmitted).records.get
          ⟨0, h⟩).diff = none := by
  intro hall
  have := hall (by decide)
  exact absurd this (by decide)

/-- C3 (amended): when every match of the run emits a record, the first
emitted record carries delta `None` and every later record's delta is the
signed millisecond difference between its timestamp and the previous
record's timestamp. -/
theorem delta_measured_from_previous_record (p : LineProcessor)
    (inputs : List (Captures × Int))
    (hr : p.records = []) (hl : p.state.last_timestamp = none)
    (hemit : ∀ x ∈ inputs, emits p.data_source x.1 = true) :
    (∀ h : 0 < (processAll p inputs).records.length,
      ((processAll p inputs).records.get ⟨0, h⟩).diff = none) ∧
    ∀ (k : Nat) (h : k + 1 < (processAll p inputs).records.length),
      ((processAll p inputs).records.get ⟨k + 1, h⟩).diff =
        some (((processAll p inputs).records.get ⟨k + 1, h⟩).timestamp -
          ((processAll p inputs).records.get
            ⟨k, Nat.lt_of_succ_lt h⟩).timestamp) := by
  have hrec := processAll_records inputs p hemit
  rw [hr, hl, List.nil_append] at hrec
  constructor
  · intro h
    have h2 : 0 < (expectedRecords p.data_source p.state.count none
        inputs).length := by rw [← hrec]; exact h
    rw [listGetCongr hrec 0 h h2]
    exact expectedRecords_diff_first p.data_source inputs p.state.count h2
  · intro k h
    have h2 : k + 1 < (expectedRecords p.data_source p.state.count none
        inputs).length := by rw [← hrec]; exact h
    rw [listGetCongr hrec (k + 1) h h2,
      listGetCongr hrec k (Nat.lt_of_succ_lt h) (Nat.lt_of_succ_lt h2)]
    exact expectedRecords_diff_step p.data_source inputs p.state.count none
      k h2

/-- Witness for C3 (amended): deltas are None then 1000 ms for matches at
1000 and 2000 ms. -/
theorem delta_measured_from_previous_record_witness :
    ((processAll sampleFieldProcessor
        [(goodCapture, 1000), (goodCapture, 2000)]).records.get
      ⟨0, by decide⟩).diff = none :=
  (delta_measured_from_previous_record sampleFieldProcessor
    [(goodCapture, 1000), (goodCapture, 2000)] rfl rfl
    (by intro x hx; fin_cases hx <;> decide)).1 (by decide)

/-- C6: unit normalization of a `FieldValue` capture — no unit or an
unrecognized unit leaves the parsed value unchanged, `ms` is the identity,
`s` multiplies by 1000, `us` divides by 1000 and `ns` divides by 1000000. -/
theorem normalize_value_unit_table (s : String) (q : ℚ)
    (h : parseDecimal s = some q) :
    normalize_value s "" = some q ∧
    normalize_value s "ms" = some q ∧
    normalize_value s "s" = some (q * 1000) ∧
    normalize_value s "us" = some (q / 1000) ∧
    normalize_value s "ns" = some (q / 1000000) ∧
    ∀ u : String,
      u ∉ (["s", "ms", "us", "Âµs", "ns", "microseconds"] : List String) →
      normalize_value s u = some q := by
  refine ⟨?_, ?_, ?_, ?_, ?_, ?_⟩
  · simp [normalize_value, h]
  · simp [normalize_value, h]
  · simp [normalize_value, h]
  · simp [normalize_value, h]
  · simp [normalize_value, h]
  · intro u hu
    simp only [List.mem_cons, List.not_mem_nil, or_false, not_or] at hu
    obtain ⟨h1, h2, h3, h4, h5, h6⟩ := hu
    simp [normalize_value, h, h1, h2, h3, h4, h5, h6]

/-- Witness for C6 at the spec's value `"12.5"` (equal to `mkRat 125 10`)
and the unrecognized unit `"kg"`. -/
theorem normalize_value_unit_table_witness :
    normalize_value "12.5" "" = some (mkRat 125 10) ∧
    normalize_value "12.5" "ms" = some (mkRat 125 10) ∧
    normalize_value "12.5" "s" = some (mkRat 125 10 * 1000) ∧
    normalize_value "12.5" "us" = some (mkRat 125 10 / 1000) ∧
    normalize_value "12.5" "ns" = some (mkRat 125 10 / 1000000) ∧
    normalize_value "12.5" "kg" = some (mkRat 125 10) := by
  have h := normalize_value_unit_table "12.5" (mkRat 125 10) rfl
  exact ⟨h.1, h.2.1, h.2.2.1, h.2.2.2.1, h.2.2.2.2.1,
    h.2.2.2.2.2 "kg" (by decide)⟩

/-- The spec's round-trip values in closed form: `"12.5"` with `us` yields
0.0125 and with `s` yields 12500. -/
theorem normalize_value_round_trip_values :
    normalize_value "12.5" "us" = some (1 / 80 : ℚ) ∧
    normalize_value "12.5" "s" = some (12500 : ℚ) := by
  constructor
  · rw [show normalize_value "12.5" "us" = some (mkRat 125 10 / 1000)
      from rfl]
    norm_num [Rat.mkRat_eq_divInt, Rat.divInt_eq_div]
  · rw [show normalize_value "12.5" "s" = some (mkRat 125 10 * 1000)
      from rfl]
    norm_num [Rat.mkRat_eq_divInt, Rat.divInt_eq_div]

/-- C4: in `BestFit` mode, a panel with ranged lines gets the intersection
(max of starts, min of ends) when it is a real overlap, and otherwise
exactly the `Full` range (min of starts, max of ends). -/
theorem bestfit_intersection_or_full (p : ResolvedPanel)
    (mn maxStart minEnd mx : Int)
    (hmode : p.time_range_mode = some .BestFit)
    (hmn : (((p.lines.filterMap ResolvedLine.time_range).map Prod.fst)).min?
      = some mn)
    (hms : (((p.lines.filterMap ResolvedLine.time_range).map Prod.fst)).max?
      = some maxStart)
    (hme : (((p.lines.filterMap ResolvedLine.time_range).map Prod.snd)).min?
      = some minEnd)
    (hmx : (((p.lines.filterMap ResolvedLine.time_range).map Prod.snd)).max?
      = some mx) :
    p.resolve_time_range.time_range =
      some (if maxStart < minEnd then (maxStart, minEnd) else (mn, mx)) := by
  unfold ResolvedPanel.resolve_time_range
  simp only [hmn, hms, hme, hmx, hmode, Option.getD_some]
  by_cases hlt : maxStart < minEnd
  · simp [hlt, ResolvedPanel.set_time_range]
  · simp [hlt, ResolvedPanel.set_time_range]

/-- A `BestFit` panel holding the spec's two non-overlapping line ranges
12:00:56-12:10:00 and 12:20:56-13:10:00 (seconds of day). -/
def bestFitSamplePanel : ResolvedPanel :=
  { lines :=
      [{ (ResolvedLine.from_explicit_name
            { data_source := .FieldValue (some "g") "f", params := 0 }
            "in.log") with time_range := some (43256, 43800) },
        { (ResolvedLine.from_explicit_name
            { data_source := .FieldValue (some "g") "f", params := 1 }
            "in.log") with time_range := some (44456, 47400) }],
    time_range_mode := some .BestFit,
    time_range := none }

/-- Witness for C4: the non-overlapping intersection (44456, 43800) is
rejected and the panel falls back to the full range (43256, 47400). -/
theorem bestfit_intersection_or_full_witness :
    bestFitSamplePanel.resolve_time_range.time_range =
      some (if (44456 : Int) < 43800 then ((44456 : Int), (43800 : Int))
        else (43256, 47400)) :=
  bestfit_intersection_or_full bestFitSamplePanel 43256 44456 43800 47400
    rfl rfl rfl rfl rfl

theorem lp_update_fc_guard (p : LineProcessor) (n : Nat) (l : String) :
    ({ p with timestamp_extraction_failure_count := n }
      : LineProcessor).guard_matches l = p.guard_matches l := rfl

theorem lp_update_fc_extract (p : LineProcessor) (n : Nat) :
    ({ p with timestamp_extraction_failure_count := n }
      : LineProcessor).extract = p.extract := rfl

theorem try_match_fail_below_threshold (q : LineProcessor) (l : String)
    (h1 : q.guard_matches l = true) (h2 : q.extract l = none)
    (h3 : q.timestamp_extraction_failure_count < 3) :
    q.try_match l = .ok
      ({ q with timestamp_extraction_failure_count :=
          q.timestamp_extraction_failure_count + 1 }, true, none) := by
  have hno : ¬ (q.timestamp_extraction_failure_count + 1 > 3) := by omega
  simp [LineProcessor.try_match, h1, h2,
    LineProcessor.handle_timestamp_extraction_failure, hno]

theorem try_match_fail_at_threshold (q : LineProcessor) (l : String)
    (h1 : q.guard_matches l = true) (h2 : q.extract l = none)
    (h3 : 3 ≤ q.timestamp_extraction_failure_count) :
    q.try_match l = .error (.TimestampExtractionFailure q.input_file_name
      q.timestamp_format l) := by
  have hyes : q.timestamp_extraction_failure_count + 1 > 3 := by omega
  simp [LineProcessor.try_match, h1, h2,
    LineProcessor.handle_timestamp_extraction_failure, hyes]

theorem scanLines_all_fail (lines : List String) : ∀ p : LineProcessor,
    (∀ l ∈ lines, p.guard_matches l = true) →
    (∀ l ∈ lines, p.extract l = none) →
    p.timestamp_extraction_failure_count + lines.length ≤ 3 →
    scanLines p lines = .ok { p with
      timestamp_extraction_failure_count :=
        p.timestamp_extraction_failure_count + lines.length } := by
  induction lines with
  | nil => intro p _ _ _; simp [scanLines]
  | cons l rest ih =>
    intro p hg he hlen
    have h1 : p.guard_matches l = true := hg l (by simp)
    have h2 : p.extract l = none := he l (by simp)
    have h3 : p.timestamp_extraction_failure_count < 3 := by
      simp only [List.length_cons] at hlen; omega
    have hstep := try_match_fail_below_threshold p l h1 h2 h3
    have hrest := ih { p with timestamp_extraction_failure_count :=
        p.timestamp_extraction_failure_count + 1 }
      (by intro x hx; rw [lp_update_fc_guard];
          exact hg x (List.mem_cons_of_mem _ hx))
      (by intro x hx; rw [lp_update_fc_extract];
          exact he x (List.mem_cons_of_mem _ hx))
      (by simp only [List.length_cons] at hlen; simp; omega)
    calc scanLines p (l :: rest)
        = scanLines { p with timestamp_extraction_failure_count :=
            p.timestamp_extraction_failure_count + 1 } rest := by
          simp only [scanLines, hstep]
      _ = .ok { p with timestamp_extraction_failure_count :=
            p.timestamp_extraction_failure_count + (rest.length + 1) } := by
          rw [hrest]; simp; omega


theorem scanLines_append (xs ys : List String) : ∀ p : LineProcessor,
    scanLines p (xs ++ ys) =
      match scanLines p xs with
      | .ok q => scanLines q ys
      | .error e => .error e := by
  induction xs with
  | nil => intro p; simp [scanLines]
  | cons l rest ih =>
    intro p
    rcases h : p.try_match l with e | ⟨p2, b, mc⟩
    · simp only [List.cons_append, scanLines, h]
    · rcases mc with _ | ⟨caps, timestamp⟩
      · simp only [List.cons_append, scanLines, h]
        exact ih p2
      · simp only [List.cons_append, scanLines, h]
        exact ih (p2.process caps timestamp)

/-- C7: in one scan, the first three timestamp-extraction failures of a
Line Processor are non-fatal (the failing lines yield no captures and the
scan continues), and the failure strictly after the threshold of 3 aborts
the scan with a fatal error carrying the input file, the
timestamp format, and the offending line verbatim. -/
theorem timestamp_failure_threshold (p : LineProcessor)
    (l1 l2 l3 l4 : String)
    (hc : p.timestamp_extraction_failure_count = 0)
    (hg : ∀ l ∈ [l1, l2, l3, l4], p.guard_matches l = true)
    (he : ∀ l ∈ [l1, l2, l3, l4], p.extract l = none) :
    scanLines p [l1, l2, l3] =
      .ok { p with timestamp_extraction_failure_count := 3 } ∧
    scanLines p [l1, l2, l3, l4] =
      .error (.TimestampExtractionFailure p.input_file_name
        p.timestamp_format l4) := by
  have hg3 : ∀ l ∈ [l1, l2, l3], p.guard_matches l = true := by
    intro l hl
    apply hg
    simp only [List.mem_cons, List.not_mem_nil, or_false] at hl ⊢
    tauto
  have he3 : ∀ l ∈ [l1, l2, l3], p.extract l = none := by
    intro l hl
    apply he
    simp only [List.mem_cons, List.not_mem_nil, or_false] at hl ⊢
    tauto
  have h3 := scanLines_all_fail [l1, l2, l3] p hg3 he3 (by simp [hc])
  rw [hc] at h3
  have h3s : scanLines p [l1, l2, l3] =
      .ok { p with timestamp_extraction_failure_count := 3 } := by
    simpa using h3
  refine ⟨h3s, ?_⟩
  have happ := scanLines_append [l1, l2, l3] [l4] p
  have hl : ([l1, l2, l3] ++ [l4] : List String) = [l1, l2, l3, l4] := by
    simp
  rw [hl, h3s] at happ
  have h4 := try_match_fail_at_threshold
    { p with timestamp_extraction_failure_count := 3 } l4
    (by rw [lp_update_fc_guard]; exact hg l4 (by simp))
    (by rw [lp_update_fc_extract]; exact he l4 (by simp))
    (by simp)
  rw [happ]
  simp only [scanLines, h4]

/-- A processor with no guard whose timestamp oracle rejects every line. -/
def failingExtractProcessor : LineProcessor :=
  { data_source := .EventCount none "pat",
    regex := fun _ => none,
    extract := fun _ => none,
    state := ProcessingState.init,
    records := [],
    timestamp_format := .DateTime "%Y-%m-%d %H:%M:%S",
    timestamp_extraction_failure_count := 0,
    input_file_name := "input.log" }

/-- Witness for C7: three failing lines leave the scan alive with counter
3, the fourth aborts it naming the file, format and line. -/
theorem timestamp_failure_threshold_witness :
    scanLines failingExtractProcessor ["a", "b", "c"] =
      .ok { failingExtractProcessor with
        timestamp_extraction_failure_count := 3 } ∧
    scanLines failingExtractProcessor ["a", "b", "c", "d"] =
      .error (.TimestampExtractionFailure "input.log"
        (.DateTime "%Y-%m-%d %H:%M:%S") "d") :=
  timestamp_failure_threshold failingExtractProcessor "a" "b" "c" "d" rfl
    (by intro l _; rfl) (by intro l _; rfl)

/-- A line with resolved window (0, 10). -/
def rangedSampleLine : ResolvedLine :=
  { (ResolvedLine.from_explicit_name
      { data_source := .FieldValue (some "g") "f", params := 0 }
      "in.log") with time_range := some (0, 10) }

/-- A line with no resolved window. -/
def rangelessSampleLine : ResolvedLine :=
  ResolvedLine.from_explicit_name
    { data_source := .FieldValue (some "g") "f", params := 1 } "in.log"

/-- A two-panel config: the first panel has a ranged line, the second panel
has only a rangeless line. -/
def sharedFullSampleConfig : ResolvedGraphConfig :=
  { panels :=
      [{ lines := [rangedSampleLine], time_range_mode := none,
         time_range := none },
       { lines := [rangelessSampleLine], time_range_mode := none,
         time_range := none }] }

/-- C5 fails as stated: under `SharedFull`, a panel none of whose lines
carries a range is not left with no range — it too receives the combined
window. -/
theorem sharedfull_rangeless_panel_counterexample :
    (∀ l ∈ rangelessSampleLine :: [], l.time_range = none) ∧
    (resolve_panels_ranges_inner sharedFullSampleConfig .SharedFull).map
        (fun c => c.panels.map ResolvedPanel.time_range) =
      some [some (0, 10), some (0, 10)] := by
  constructor
  · intro l hl
    simp only [List.mem_cons, List.not_mem_nil, or_false] at hl
    subst hl
    rfl
  · rfl

/-- C5 (amended): under `SharedFull`, when the combined window (min of
panel starts, max of panel ends) is a proper interval, it is applied to
every panel unconditionally — including panels with no resolved range. -/
theorem sharedfull_applies_to_every_panel (cfg : ResolvedGraphConfig)
    (s e : Int)
    (hs : (((resolveAllPanels cfg).panels.filterMap
      ResolvedPanel.time_range).map Prod.fst).min? = some s)
    (he : (((resolveAllPanels cfg).panels.filterMap
      ResolvedPanel.time_range).map Prod.snd).max? = some e)
    (hlt : s < e) :
    resolve_panels_ranges_inner cfg .SharedFull =
      some (setAllPanels (resolveAllPanels cfg) s e) ∧
    ∀ cfg2, resolve_panels_ranges_inner cfg .SharedFull = some cfg2 →
      ∀ q ∈ cfg2.panels, q.time_range = some (s, e) := by
  have h1 : resolve_panels_ranges_inner cfg .SharedFull =
      some (setAllPanels (resolveAllPanels cfg) s e) := by
    unfold resolve_panels_ranges_inner
    simp only [hs, he, hlt, if_true]
  refine ⟨h1, ?_⟩
  intro cfg2 h2 q hq
  rw [h1] at h2
  cases h2
  simp only [setAllPanels, List.mem_map] at hq
  obtain ⟨q0, _, rfl⟩ := hq
  rfl

/-- Witness for C5 (amended) on the two-panel sample config. -/
theorem sharedfull_applies_to_every_panel_witness :
    resolve_panels_ranges_inner sharedFullSampleConfig .SharedFull =
      some (setAllPanels (resolveAllPanels sharedFullSampleConfig) 0 10) :=
  (sharedfull_applies_to_every_panel sharedFullSampleConfig 0 10 rfl rfl
    (by decide)).1

/-- The optional guard segment of a cache filename. -/
def guardPart : Option String → String
  | some g => g ++ "__"
  | none => ""

/-- Modelled from the spec: the claimed filename scheme
`<source-file-name>_<source-mtime-seconds>__[<guard>__]<kind-tag>_<pattern-or-field-urlencoded>[_<yvalue>].csv`
instantiated for an `EventValue` line, where the `yvalue` appears as a
suffix after the url-encoded pattern. -/
def spec_claimed_event_value_csv_filename (mtime : MtimeOracle)
    (gd : Option String) (pattern : String) (yvalue : ℚ) (src : String) :
    String :=
  pathFileName src ++ "_" ++ mtime src ++ "__" ++ guardPart gd ++
    "value_" ++ urlencode pattern ++ "_" ++ showYValue yvalue ++ ".csv"

/-- The regex oracle for the concrete filename statements: no field string
is accepted as a user regex and escaping is the identity (the concrete
fields used contain no metacharacters). -/
def sampleOracle : RegexOracle :=
  { is_field_valid_regex := fun _ => false, escape := fun s => s }

/-- Concrete mtime oracle: every source file has mtime 7 seconds. -/
def sampleMtime : MtimeOracle := fun _ => "7"

/-- An `EventValue` line with pattern `pat` and yvalue 100 bound to
`in.log`. -/
def eventValueSampleLine : ResolvedLine :=
  ResolvedLine.from_explicit_name
    { data_source := .EventValue none "pat" 100, params := 0 } "in.log"

/-- C8 fails as stated: the code puts the `EventValue` yvalue between the
kind-tag and the url-encoded pattern (`value_100_pat`), not as a suffix
after the pattern as the claimed scheme says (`value_pat_100`). -/
theorem csv_filename_scheme_counterexample :
    eventValueSampleLine.get_csv_filename sampleOracle sampleMtime =
      "in.log_7__value_100_pat.csv" ∧
    spec_claimed_event_value_csv_filename sampleMtime none "pat" 100
      "in.log" = "in.log_7__value_pat_100.csv" ∧
    eventValueSampleLine.get_csv_filename sampleOracle sampleMtime ≠
      spec_claimed_event_value_csv_filename sampleMtime none "pat" 100
        "in.log" := by
  refine ⟨rfl, rfl, by decide⟩

theorem merge_value_tag (R : String) :
    "__" ++ ("value_" ++ R) = "__value_" ++ R := by
  rw [← String.append_assoc]; rfl

theorem merge_count_tag (R : String) :
    "__" ++ ("count_" ++ R) = "__count_" ++ R := by
  rw [← String.append_assoc]; rfl

theorem merge_delta_tag (R : String) :
    "__" ++ ("delta_" ++ R) = "__delta_" ++ R := by
  rw [← String.append_assoc]; rfl

/-- C8 (amended): the cache filename is
`<source-file-name>_<mtime-seconds>__[<guard>__]<core>.csv` where `core` is
`value_<yvalue>_<tag>` for `EventValue`, `count_<tag>` for `EventCount`,
`delta_<tag>` for `EventDelta`, and just `<tag>` (no kind-tag) for
`FieldValue`, with `<tag>` the url-encoded effective pattern. -/
theorem csv_filename_scheme (oracle : RegexOracle) (mtime : MtimeOracle)
    (gd : Option String) (pat fld : String) (y : ℚ) (src : String)
    (p1 p2 p3 p4 : Nat) :
    (ResolvedLine.from_explicit_name
        { data_source := .EventValue gd pat y, params := p1 }
        src).get_csv_filename oracle mtime =
      pathFileName src ++ "_" ++ mtime src ++ "__" ++ guardPart gd ++
        "value_" ++ showYValue y ++ "_" ++ urlencode pat ++ ".csv" ∧
    (ResolvedLine.from_explicit_name
        { data_source := .EventCount gd pat, params := p2 }
        src).get_csv_filename oracle mtime =
      pathFileName src ++ "_" ++ mtime src ++ "__" ++ guardPart gd ++
        "count_" ++ urlencode pat ++ ".csv" ∧
    (ResolvedLine.from_explicit_name
        { data_source := .EventDelta gd pat, params := p3 }
        src).get_csv_filename oracle mtime =
      pathFileName src ++ "_" ++ mtime src ++ "__" ++ guardPart gd ++
        "delta_" ++ urlencode pat ++ ".csv" ∧
    (ResolvedLine.from_explicit_name
        { data_source := .FieldValue gd fld, params := p4 }
        src).get_csv_filename oracle mtime =
      pathFileName src ++ "_" ++ mtime src ++ "__" ++ guardPart gd ++
        urlencode (regex_pattern oracle (.FieldValue gd fld)) ++ ".csv" := by
  cases gd <;>
    simp [ResolvedLine.get_csv_filename, ResolvedLine.from_explicit_name,
      regex_filename_tag, regex_pattern, guardPart,
      ResolvedLine.source_file_name, DataSource.guard, String.append_assoc,
      merge_value_tag, merge_count_tag, merge_delta_tag]

/-- Witness for C8 (amended) at the concrete sample line. -/
theorem csv_filename_scheme_witness :
    (ResolvedLine.from_explicit_name
        { data_source := .EventValue none "pat" 100, params := 0 }
        "in.log").get_csv_filename sampleOracle sampleMtime =
      pathFileName "in.log" ++ "_" ++ sampleMtime "in.log" ++ "__" ++
        guardPart none ++ "value_" ++ showYValue 100 ++ "_" ++
        urlencode "pat" ++ ".csv" :=
  (csv_filename_scheme sampleOracle sampleMtime none "pat" "f" 100 "in.log"
    0 0 0 0).1

theorem canonicalOf_isSome {g : List ResolvedLine} (hg : g ≠ []) :
    ∃ c, canonicalOf g = some c := by
  cases g with
  | nil => exact absurd rfl hg
  | cons a tl =>
    rcases ho : ((a :: tl).find? (fun l => l.line.data_source.isFieldValue)).or
        ((a :: tl).find? (fun l => l.line.data_source.isEventValue)) with _ | c
    · exact ⟨a, by unfold canonicalOf; rw [ho]; rfl⟩
    · exact ⟨c, by unfold canonicalOf; rw [ho]; rfl⟩

theorem keys_registerNonShared_mono (oracle : RegexOracle)
    (mtime : MtimeOracle) (cacheDir : String → String)
    (m : List (String × ResolvedLine)) (l : ResolvedLine) (x : String)
    (hx : x ∈ m.map Prod.fst) :
    x ∈ (registerNonShared oracle mtime cacheDir m l).map Prod.fst := by
  unfold registerNonShared
  split
  · exact hx
  · exact mem_keys_assocOrInsert_of_mem _ _ x m hx

theorem keys_groupFoldl_mono (oracle : RegexOracle) (mtime : MtimeOracle)
    (cacheDir : String → String) (g : List ResolvedLine) :
    ∀ (m : List (String × ResolvedLine)) (x : String), x ∈ m.map Prod.fst →
      x ∈ (g.foldl (registerNonShared oracle mtime cacheDir) m).map
        Prod.fst := by
  induction g with
  | nil => intro m x hx; exact hx
  | cons a tl ih =>
    intro m x hx
    exact ih _ x (keys_registerNonShared_mono _ _ _ m a x hx)

theorem nonshared_key_mem_groupFoldl (oracle : RegexOracle)
    (mtime : MtimeOracle) (cacheDir : String → String)
    (g : List ResolvedLine) :
    ∀ (m : List (String × ResolvedLine)) (l : ResolvedLine), l ∈ g →
      l.can_csv_file_be_shared = false →
      ownCsvPath oracle mtime cacheDir l ∈
        (g.foldl (registerNonShared oracle mtime cacheDir) m).map
          Prod.fst := by
  induction g with
  | nil => intro m l hl _; exact absurd hl (List.not_mem_nil l)
  | cons a tl ih =>
    intro m l hl hsh
    rcases List.mem_cons.mp hl with h | h
    · subst h
      have hstep : ownCsvPath oracle mtime cacheDir l ∈
          (registerNonShared oracle mtime cacheDir m l).map Prod.fst := by
        simp only [registerNonShared, hsh]
        exact self_mem_keys_assocOrInsert _ _ m
      exact keys_groupFoldl_mono _ _ _ tl _ _ hstep
    · exact ih _ l h hsh

theorem processGroupInto_keys_mono (oracle : RegexOracle)
    (mtime : MtimeOracle) (cacheDir : String → String)
    (m : List (String × ResolvedLine)) (g : List ResolvedLine) (x : String)
    (hx : x ∈ m.map Prod.fst) :
    x ∈ (processGroupInto oracle mtime cacheDir m g).map Prod.fst := by
  rcases h : canonicalOf g with _ | c <;> simp only [processGroupInto, h]
  · exact hx
  · exact keys_groupFoldl_mono _ _ _ g _ x
      (mem_keys_assocInsert_of_mem _ _ x m hx)

theorem canonical_key_mem_processGroupInto (oracle : RegexOracle)
    (mtime : MtimeOracle) (cacheDir : String → String)
    (m : List (String × ResolvedLine)) (g : List ResolvedLine)
    (c : ResolvedLine) (hc : canonicalOf g = some c) :
    ownCsvPath oracle mtime cacheDir c ∈
      (processGroupInto oracle mtime cacheDir m g).map Prod.fst := by
  simp only [processGroupInto, hc]
  exact keys_groupFoldl_mono _ _ _ g _ _ (self_mem_keys_assocInsert _ _ m)

theorem nonshared_key_mem_processGroupInto (oracle : RegexOracle)
    (mtime : MtimeOracle) (cacheDir : String → String)
    (m : List (String × ResolvedLine)) (g : List ResolvedLine)
    (l c : ResolvedLine) (hc : canonicalOf g = some c) (hl : l ∈ g)
    (hsh : l.can_csv_file_be_shared = false) :
    ownCsvPath oracle mtime cacheDir l ∈
      (processGroupInto oracle mtime cacheDir m g).map Prod.fst := by
  simp only [processGroupInto, hc]
  exact nonshared_key_mem_groupFoldl _ _ _ g _ l hl hsh

theorem keys_cfgFoldl_mono (oracle : RegexOracle) (mtime : MtimeOracle)
    (cacheDir : String → String) (cfg : ResolvedGraphConfig)
    (ks : List MatchKey) :
    ∀ (m : List (String × ResolvedLine)) (x : String), x ∈ m.map Prod.fst →
      x ∈ (ks.foldl
        (fun m k => processGroupInto oracle mtime cacheDir m (groupOf cfg k))
        m).map Prod.fst := by
  induction ks with
  | nil => intro m x hx; exact hx
  | cons a tl ih =>
    intro m x hx
    exact ih _ x (processGroupInto_keys_mono _ _ _ m (groupOf cfg a) x hx)

theorem canonical_key_mem_cfgFoldl (oracle : RegexOracle)
    (mtime : MtimeOracle) (cacheDir : String → String)
    (cfg : ResolvedGraphConfig) (ks : List MatchKey) :
    ∀ (m : List (String × ResolvedLine)) (k : MatchKey) (c : ResolvedLine),
      k ∈ ks → canonicalOf (groupOf cfg k) = some c →
      ownCsvPath oracle mtime cacheDir c ∈ (ks.foldl
        (fun m k => processGroupInto oracle mtime cacheDir m (groupOf cfg k))
        m).map Prod.fst := by
  induction ks with
  | nil => intro m k c hk _; exact absurd hk (List.not_mem_nil k)
  | cons a tl ih =>
    intro m k c hk hc
    rcases List.mem_cons.mp hk with h | h
    · subst h
      exact keys_cfgFoldl_mono _ _ _ cfg tl _ _
        (canonical_key_mem_processGroupInto _ _ _ m (groupOf cfg k) c hc)
    · exact ih _ k c h hc

theorem nonshared_key_mem_cfgFoldl (oracle : RegexOracle)
    (mtime : MtimeOracle) (cacheDir : String → String)
    (cfg : ResolvedGraphConfig) (ks : List MatchKey) :
    ∀ (m : List (String × ResolvedLine)) (k : MatchKey)
      (l c : ResolvedLine), k ∈ ks →
      canonicalOf (groupOf cfg k) = some c → l ∈ groupOf cfg k →
      l.can_csv_file_be_shared = false →
      ownCsvPath oracle mtime cacheDir l ∈ (ks.foldl
        (fun m k => processGroupInto oracle mtime cacheDir m (groupOf cfg k))
        m).map Prod.fst := by
  induction ks with
  | nil => intro m k l c hk _ _ _; exact absurd hk (List.not_mem_nil k)
  | cons a tl ih =>
    intro m k l c hk hc hl hsh
    rcases List.mem_cons.mp hk with h | h
    · subst h
      exact keys_cfgFoldl_mono _ _ _ cfg tl _ _
        (nonshared_key_mem_processGroupInto _ _ _ m (groupOf cfg k) l c hc
          hl hsh)
    · exact ih _ k l c h hc hl hsh

theorem mem_insertKey_of_mem (ks : List MatchKey) (k x : MatchKey)
    (hx : x ∈ ks) : x ∈ insertKey ks k := by
  unfold insertKey
  by_cases hc : ks.contains k = true
  · rw [if_pos hc]; exact hx
  · rw [if_neg hc]; exact List.mem_append_left _ hx

theorem self_mem_insertKey (ks : List MatchKey) (k : MatchKey) :
    k ∈ insertKey ks k := by
  unfold insertKey
  by_cases hc : ks.contains k = true
  · rw [if_pos hc]
    simpa using List.elem_iff.mp hc
  · rw [if_neg hc]
    exact List.mem_append_right _ (List.mem_singleton_self _)

theorem keys_groupKeysFold_mono (ls : List ResolvedLine) :
    ∀ (ks : List MatchKey) (x : MatchKey), x ∈ ks →
      x ∈ ls.foldl (fun ks l => insertKey ks (lineKey l)) ks := by
  induction ls with
  | nil => intro ks x hx; exact hx
  | cons a tl ih =>
    intro ks x hx
    exact ih (insertKey ks (lineKey a)) x
      (mem_insertKey_of_mem ks (lineKey a) x hx)

theorem lineKey_mem_groupKeysFold (ls : List ResolvedLine) :
    ∀ (ks : List MatchKey) (l : ResolvedLine), l ∈ ls →
      lineKey l ∈ ls.foldl (fun ks l => insertKey ks (lineKey l)) ks := by
  induction ls with
  | nil => intro ks l hl; exact absurd hl (List.not_mem_nil l)
  | cons a tl ih =>
    intro ks l hl
    rcases List.mem_cons.mp hl with h | h
    · subst h
      exact keys_groupKeysFold_mono tl (insertKey ks (lineKey l)) _
        (self_mem_insertKey ks (lineKey l))
    · exact ih _ l h

theorem lineKey_mem_groupKeys (cfg : ResolvedGraphConfig) (l : ResolvedLine)
    (hl : l ∈ cfg.all_lines) : lineKey l ∈ groupKeys cfg :=
  lineKey_mem_groupKeysFold cfg.all_lines [] l hl

/-- C9: after dedup resolution, every line of every panel carries a `some`
cache-file path, and that path is a key of the returned map of distinct
canonical cache files. -/
theorem dedup_resolution_invariant (oracle : RegexOracle)
    (mtime : MtimeOracle) (cacheDir : String → String)
    (cfg : ResolvedGraphConfig) :
    ∀ pnl ∈ (propagate_shared_csv_files oracle mtime cacheDir cfg).1.panels,
      ∀ l ∈ pnl.lines, ∃ path,
        l.shared_csv_file = some path ∧
        path ∈ (propagate_shared_csv_files oracle mtime cacheDir
          cfg).2.map Prod.fst := by
  intro pnl hpnl l hl
  simp only [propagate_shared_csv_files, List.mem_map] at hpnl
  obtain ⟨p0, hp0, rfl⟩ := hpnl
  simp only [List.mem_map] at hl
  obtain ⟨l0, hl0, rfl⟩ := hl
  have hall : l0 ∈ cfg.all_lines := by
    simp only [ResolvedGraphConfig.all_lines]
    exact List.mem_flatten.mpr ⟨p0.lines, List.mem_map_of_mem _ hp0, hl0⟩
  have hgrp : l0 ∈ groupOf cfg (lineKey l0) := by
    simp [groupOf, List.mem_filter, hall]
  have hne : groupOf cfg (lineKey l0) ≠ [] := by
    intro h
    rw [h] at hgrp
    exact absurd hgrp (List.not_mem_nil l0)
  obtain ⟨c, hc⟩ := canonicalOf_isSome hne
  have hkey : lineKey l0 ∈ groupKeys cfg := lineKey_mem_groupKeys cfg l0 hall
  by_cases hsh : l0.can_csv_file_be_shared = true
  · refine ⟨ownCsvPath oracle mtime cacheDir c, ?_, ?_⟩
    · simp [resolveLineCsv, hsh, hc]
    · simp only [propagate_shared_csv_files]
      exact canonical_key_mem_cfgFoldl oracle mtime cacheDir cfg
        (groupKeys cfg) [] (lineKey l0) c hkey hc
  · have hsh2 : l0.can_csv_file_be_shared = false :=
      Bool.eq_false_iff.mpr hsh
    refine ⟨ownCsvPath oracle mtime cacheDir l0, ?_, ?_⟩
    · simp [resolveLineCsv, hsh2, withOwnCsv]
    · simp only [propagate_shared_csv_files]
      exact nonshared_key_mem_cfgFoldl oracle mtime cacheDir cfg
        (groupKeys cfg) [] (lineKey l0) l0 c hkey hc hgrp hsh2

/-- A `FieldValue` line bound to a source file (`params` is the opaque
presentation payload). -/
def fieldLine (gd : Option String) (fld src : String) (pp : Nat) :
    ResolvedLine :=
  ResolvedLine.from_explicit_name
    { data_source := .FieldValue gd fld, params := pp } src

/-- An `EventCount` line bound to a source file. -/
def countLine (gd : Option String) (pat src : String) (pp : Nat) :
    ResolvedLine :=
  ResolvedLine.from_explicit_name
    { data_source := .EventCount gd pat, params := pp } src

/-- An `EventDelta` line bound to a source file. -/
def deltaLine (gd : Option String) (pat src : String) (pp : Nat) :
    ResolvedLine :=
  ResolvedLine.from_explicit_name
    { data_source := .EventDelta gd pat, params := pp } src

/-- A one-panel config holding the given lines. -/
def onePanelConfig (ls : List ResolvedLine) : ResolvedGraphConfig :=
  { panels := [{ lines := ls, time_range_mode := none, time_range := none }] }

/-- A small concrete config for the dedup witnesses. -/
def dedupWitnessConfig : ResolvedGraphConfig :=
  onePanelConfig [fieldLine (some "g") "duration" "in.log" 0,
    countLine (some "g") "duration" "in.log" 1]

/-- Witness for C9 on a concrete two-line config: the first resolved line
carries a path that is a key of the canonicals map. -/
theorem dedup_resolution_invariant_witness :
    ∃ path,
      (((propagate_shared_csv_files sampleOracle sampleMtime (fun _ => "/out")
          dedupWitnessConfig).1.panels.headD
        { lines := [], time_range_mode := none,
          time_range := none }).lines.headD
          (fieldLine (some "g") "duration" "in.log" 0)).shared_csv_file =
        some path ∧
      path ∈ (propagate_shared_csv_files sampleOracle sampleMtime
        (fun _ => "/out") dedupWitnessConfig).2.map Prod.fst :=
  dedup_resolution_invariant sampleOracle sampleMtime (fun _ => "/out")
    dedupWitnessConfig
    ((propagate_shared_csv_files sampleOracle sampleMtime (fun _ => "/out")
        dedupWitnessConfig).1.panels.headD
      { lines := [], time_range_mode := none, time_range := none })
    (by decide)
    (((propagate_shared_csv_files sampleOracle sampleMtime (fun _ => "/out")
        dedupWitnessConfig).1.panels.headD
      { lines := [], time_range_mode := none,
        time_range := none }).lines.headD
        (fieldLine (some "g") "duration" "in.log" 0))
    (by decide)

/-- C1: dedup idempotence of the cache-key resolver.  Two `FieldValue`
lines with identical (guard, field, source file) resolve to exactly one
cache file assigned to both; an `EventCount` and an `EventDelta` line with
identical (guard, pattern, source file) and no `FieldValue`/`EventValue`
sibling resolve to exactly one shared cache file, whose kind-tag (`count_`
or `delta_`) is that of the canonical line — the group's first line. -/
theorem dedup_idempotence (oracle : RegexOracle) (mtime : MtimeOracle)
    (cacheDir : String → String) (gd : Option String) (fld pat src : String)
    (p1 p2 : Nat) :
    ((propagate_shared_csv_files oracle mtime cacheDir
        (onePanelConfig [fieldLine gd fld src p1,
          fieldLine gd fld src p2])).1.all_lines.map
        ResolvedLine.shared_csv_file =
      [some (ownCsvPath oracle mtime cacheDir (fieldLine gd fld src p1)),
        some (ownCsvPath oracle mtime cacheDir (fieldLine gd fld src p1))] ∧
      (propagate_shared_csv_files oracle mtime cacheDir
        (onePanelConfig [fieldLine gd fld src p1,
          fieldLine gd fld src p2])).2.map Prod.fst =
        [ownCsvPath oracle mtime cacheDir (fieldLine gd fld src p1)]) ∧
    ((propagate_shared_csv_files oracle mtime cacheDir
        (onePanelConfig [countLine gd pat src p1,
          deltaLine gd pat src p2])).1.all_lines.map
        ResolvedLine.shared_csv_file =
      [some (ownCsvPath oracle mtime cacheDir (countLine gd pat src p1)),
        some (ownCsvPath oracle mtime cacheDir (countLine gd pat src p1))] ∧
      (propagate_shared_csv_files oracle mtime cacheDir
        (onePanelConfig [countLine gd pat src p1,
          deltaLine gd pat src p2])).2.map Prod.fst =
        [ownCsvPath oracle mtime cacheDir (countLine gd pat src p1)] ∧
      (countLine gd pat src p1).get_csv_filename oracle mtime =
        pathFileName src ++ "_" ++ mtime src ++ "__" ++ guardPart gd ++
          "count_" ++ urlencode pat ++ ".csv") ∧
    ((propagate_shared_csv_files oracle mtime cacheDir
        (onePanelConfig [deltaLine gd pat src p1,
          countLine gd pat src p2])).1.all_lines.map
        ResolvedLine.shared_csv_file =
      [some (ownCsvPath oracle mtime cacheDir (deltaLine gd pat src p1)),
        some (ownCsvPath oracle mtime cacheDir (deltaLine gd pat src p1))] ∧
      (propagate_shared_csv_files oracle mtime cacheDir
        (onePanelConfig [deltaLine gd pat src p1,
          countLine gd pat src p2])).2.map Prod.fst =
        [ownCsvPath oracle mtime cacheDir (deltaLine gd pat src p1)] ∧
      (deltaLine gd pat src p1).get_csv_filename oracle mtime =
        pathFileName src ++ "_" ++ mtime src ++ "__" ++ guardPart gd ++
          "delta_" ++ urlencode pat ++ ".csv") := by
  have hfileA : ResolvedLine.get_csv_filename oracle mtime
      { line := { data_source := .FieldValue gd fld, params := p2 },
        source := src, shared_csv_file := none, data_points_count := 0,
        time_range := none } =
    ResolvedLine.get_csv_filename oracle mtime
      { line := { data_source := .FieldValue gd fld, params := p1 },
        source := src, shared_csv_file := none, data_points_count := 0,
        time_range := none } := rfl
  refine ⟨⟨?_, ?_⟩, ⟨?_, ?_, ?_⟩, ⟨?_, ?_, ?_⟩⟩ <;>
    first
    | (simp [propagate_shared_csv_files, ResolvedGraphConfig.all_lines,
        onePanelConfig, groupKeys, insertKey, groupOf, lineKey, canonicalOf,
        processGroupInto, registerNonShared, assocInsert, assocOrInsert,
        resolveLineCsv, withOwnCsv, ownCsvPath, fieldLine, countLine,
        deltaLine, ResolvedLine.from_explicit_name, ResolvedLine.guard,
        ResolvedLine.match_token, ResolvedLine.source_file_name,
        ResolvedLine.can_csv_file_be_shared, DataSource.guard,
        DataSource.match_token, DataSource.can_csv_file_be_shared,
        DataSource.isFieldValue, DataSource.isEventValue, Option.or,
        List.contains_cons, hfileA]
      <;> done)
    | (cases gd <;>
        simp [ResolvedLine.get_csv_filename, ResolvedLine.from_explicit_name,
          regex_filename_tag, regex_pattern, guardPart, countLine, deltaLine,
          ResolvedLine.source_file_name, DataSource.guard,
          String.append_assoc, merge_value_tag, merge_count_tag,
          merge_delta_tag])

/-- An `EventValue` line bound to a source file. -/
def eventLine (gd : Option String) (pat src : String) (y : ℚ) (pp : Nat) :
    ResolvedLine :=
  ResolvedLine.from_explicit_name
    { data_source := .EventValue gd pat y, params := pp } src

/-- Mirror of the repo's `test_csv_resolution_00b`: a `FieldValue`, an
`EventCount` and an `EventDelta` line with the same guard and token
resolve to a single cache file. -/
theorem dedup_matches_repo_test_00b :
    (propagate_shared_csv_files sampleOracle sampleMtime
        (fun _ => "/some/out/dir")
        (onePanelConfig [fieldLine (some "guard") "duration" "input.log" 0,
          countLine (some "guard") "duration" "input.log" 1,
          deltaLine (some "guard") "duration" "input.log" 2])).2.length =
      1 := by decide

/-- Mirror of the repo's `test_csv_resolution_07`: two guards, each with
all four source kinds on the same token, resolve to four distinct cache
files. -/
theorem dedup_matches_repo_test_07 :
    (propagate_shared_csv_files sampleOracle sampleMtime
        (fun _ => "/some/out/dir")
        (onePanelConfig [fieldLine (some "guard1") "duration" "input.log" 0,
          eventLine (some "guard1") "duration" "input.log" 100 1,
          countLine (some "guard1") "duration" "input.log" 2,
          deltaLine (some "guard1") "duration" "input.log" 3,
          fieldLine (some "guard2") "duration" "input.log" 4,
          eventLine (some "guard2") "duration" "input.log" 100 5,
          countLine (some "guard2") "duration" "input.log" 6,
          deltaLine (some "guard2") "duration" "input.log" 7])).2.length =
      4 := by decide

/-- Mirror of the repo's `test_csv_resolution_11`: three `EventValue`
lines that differ only in `yvalue` keep three distinct cache files. -/
theorem dedup_matches_repo_test_11 :
    (propagate_shared_csv_files sampleOracle sampleMtime
        (fun _ => "/some/out/dir")
        (onePanelConfig [eventLine (some "guard") "duration" "input.log" 1 0,
          eventLine (some "guard") "duration" "input.log" 2 1,
          eventLine (some "guard") "duration" "input.log" 3 2])).2.length =
      3 := by decide

/-- Mirror of the counts and deltas asserted by the repo's
`test_line_processing_multi_line_field` (timestamps in absolute
milliseconds; the last line is one day later). -/
theorem processing_matches_repo_multi_line_test :
    ((processAll sampleFieldProcessor
        [(⟨some "1.5", none⟩, 41568027), (⟨some "2.5", none⟩, 41568054),
          (⟨some "3.5", none⟩, 41569054), (⟨some "4.5", none⟩, 41629154),
          (⟨some "2.5", none⟩, 128029154)]).records.map
      LogRecord.count = [1, 2, 3, 4, 5]) ∧
    ((processAll sampleFieldProcessor
        [(⟨some "1.5", none⟩, 41568027), (⟨some "2.5", none⟩, 41568054),
          (⟨some "3.5", none⟩, 41569054), (⟨some "4.5", none⟩, 41629154),
          (⟨some "2.5", none⟩, 128029154)]).records.map
      LogRecord.diff =
        [none, some 27, some 1000, some 60100, some 86400000]) := by
  constructor <;> decide

end Plox
